import Mathlib

/-!
Shallow embedding of the quard-star platform bring-up code
(`src/platform/quard_star/platform.c`): the one-time descriptor and
hart-table population step `fw_platform_init` and the lifecycle phase
hooks (`quard_star_early_init`, `quard_star_final_init`,
`quard_star_console_init`, `quard_star_domains_init`, and the two empty
exit hooks).  The hardware description tree is opaque to this code; it is
modelled through exactly the queries the code makes of it.  External
collaborators (reset registration, fixups, serial and semihosting init,
domain population) are modelled as recorded events or as parameters,
since the code only orchestrates them.
-/

/-- Modelled from the spec: the hart table's fixed capacity, the "fixed
maximum hart bound" (`SBI_HARTMASK_MAX_BITS`).  The header defining the
numeric value is not part of the sources; the value 128 is used, and the
statements below use it only as an abstract fixed capacity. -/
def SBI_HARTMASK_MAX_BITS : Nat := 128

/-- Modelled from the spec: the descriptor's bounded name capacity
("bounded-length identity string").  The header declaring the name array
is not part of the sources; the value 64 is used, and the statements
below use it only as an abstract fixed capacity. -/
def PLATFORM_NAME_SIZE : Nat := 64

/-- One immediate child node of the cpus container, as the loop in
`fw_platform_init` observes it through the blob reader adapter:
`hartIdProp` is the outcome of `fdt_parse_hart_id` (`some id` when the
parse succeeds with identifier `id`, `none` when it fails, i.e. `rc != 0`),
and `enabled` is the `fdt_node_is_enabled` test. -/
structure CpuNode where
  hartIdProp : Option Nat
  enabled : Bool
deriving DecidableEq

/-- The hardware description tree as `fw_platform_init` queries it:
whether the root node is present (`fdt_path_offset(fdt, "/") >= 0`), the
root's optional model property given as its byte content without the
terminator, whether the cpus container is present
(`fdt_path_offset(fdt, "/cpus") >= 0`), and the cpus container's
immediate child nodes in document order (`fdt_for_each_subnode`). -/
structure Fdt where
  hasRoot : Bool
  model : Option (List Nat)
  hasCpus : Bool
  cpus : List CpuNode
deriving DecidableEq

/-- The fields of the global `struct sbi_platform platform` instance that
the code reads or writes: the 64-byte name buffer (as a byte list) and the
hart count.  The remaining fields (versions, features, stack size) are
build-time constants never touched by this code. -/
structure SbiPlatform where
  name : List Nat
  hart_count : Nat
deriving DecidableEq

/-- The global mutable state of the translation unit: the `platform`
descriptor and the `generic_hart_index2id` table. -/
structure GlobalState where
  platform : SbiPlatform
  generic_hart_index2id : List Nat
deriving DecidableEq

/-- Byte content of the static initializer string "Quard-Star", padded
with zero bytes to fill the 64-byte name buffer. -/
def initialName : List Nat :=
  [81, 117, 97, 114, 100, 45, 83, 116, 97, 114] ++ List.replicate 54 0

/-- The static initializer of `platform`: name "Quard-Star" and
`.hart_count = SBI_HARTMASK_MAX_BITS`. -/
def initialPlatform : SbiPlatform :=
  { name := initialName, hart_count := SBI_HARTMASK_MAX_BITS }

/-- The static initializer of `generic_hart_index2id`: all zeros
(`= { 0 }` on an array of `SBI_HARTMASK_MAX_BITS` entries). -/
def initialTable : List Nat := List.replicate SBI_HARTMASK_MAX_BITS 0

/-- The boot-image global state before any code of this unit runs. -/
def initialGlobal : GlobalState :=
  { platform := initialPlatform, generic_hart_index2id := initialTable }

/-- Modelled from the spec: the bounded truncating copy used for the
model property (`sbi_strncpy`, whose source file is not part of the
sources here; the spec words are "copy at most (descriptor name capacity
minus 1) bytes into the descriptor's identity field").  It copies at most
`count` bytes of the source into the front of the destination, stops at
the end of the source or of the destination, and leaves every remaining
destination byte untouched. -/
def sbi_strncpy : List Nat → List Nat → Nat → List Nat
  | dest, _, 0 => dest
  | dest, [], _ => dest
  | [], _ :: _, _ => []
  | _ :: dest, s :: src, n + 1 => s :: sbi_strncpy dest src n

/-- State of the cpu-subnode loop in `fw_platform_init`: the running
`hart_count`, the `generic_hart_index2id` table being written, and — as
instrumentation for the bounds claims — the list of table indices the
store `generic_hart_index2id[hart_count++] = hartid` targets, in order. -/
structure LoopState where
  hart_count : Nat
  table : List Nat
  writes : List Nat
deriving DecidableEq

/-- One iteration of the `fdt_for_each_subnode` loop body in
`fw_platform_init`: `continue` when `fdt_parse_hart_id` fails, `continue`
when `SBI_HARTMASK_MAX_BITS <= hartid`, `continue` when the node is not
enabled; otherwise `generic_hart_index2id[hart_count++] = hartid`. -/
def fwLoopStep (st : LoopState) (node : CpuNode) : LoopState :=
  match node.hartIdProp with
  | none => st
  | some hartid =>
    if SBI_HARTMASK_MAX_BITS ≤ hartid then st
    else if !node.enabled then st
    else { hart_count := st.hart_count + 1,
           table := st.table.set st.hart_count hartid,
           writes := st.writes ++ [st.hart_count] }

/-- The whole cpu-subnode loop of `fw_platform_init`, starting from
`hart_count = 0` and the current table. -/
def fwLoop (nodes : List CpuNode) (tbl : List Nat) : LoopState :=
  nodes.foldl fwLoopStep { hart_count := 0, table := tbl, writes := [] }

/-- Outcome of `fw_platform_init`: either control reaches the `fail`
label and enters the non-returning `while (1) wfi()` busy-wait (`halted`,
carrying the global state at that point), or the function returns its
`arg1` (`returned`, carrying the return value and the final state). -/
inductive FwResult where
  | halted (g : GlobalState)
  | returned (ret : Nat) (g : GlobalState)
deriving DecidableEq

/-- The global state at the outcome, for either outcome. -/
def FwResult.state : FwResult → GlobalState
  | .halted g => g
  | .returned _ g => g

/-- Whether the outcome is the non-returning halt. -/
def FwResult.isHalted : FwResult → Bool
  | .halted _ => true
  | .returned _ _ => false

/-- The model-property step of `fw_platform_init`: when `fdt_getprop` on
the root's model property succeeds,
`sbi_strncpy(platform.name, model, sizeof(platform.name) - 1)`;
otherwise the descriptor is untouched. -/
def fwNamePhase (fdt : Fdt) (g : GlobalState) : GlobalState :=
  match fdt.model with
  | some model =>
    { g with platform := { g.platform with
        name := sbi_strncpy g.platform.name model (PLATFORM_NAME_SIZE - 1) } }
  | none => g

/-- Shallow embedding of `fw_platform_init(arg0, arg1, ...)` acting on the
tree found at `arg1`: halt when the root path lookup fails; copy the model
property when present; halt when the cpus path lookup fails; run the
cpu-subnode loop; store the final count into `platform.hart_count`; return
the original `arg1`. -/
def fw_platform_init (arg1 : Nat) (fdt : Fdt) (g : GlobalState) : FwResult :=
  if !fdt.hasRoot then .halted g
  else
    let g1 := fwNamePhase fdt g
    if !fdt.hasCpus then .halted g1
    else
      let st := fwLoop fdt.cpus g1.generic_hart_index2id
      .returned arg1
        { platform := { g1.platform with hart_count := st.hart_count },
          generic_hart_index2id := st.table }

/-- External-collaborator invocations that the lifecycle hooks make,
recorded in call order; payloads are the tree address handed to the
collaborator. -/
inductive Event where
  | reset_init
  | cpu_fixup (addr : Nat)
  | fixups (addr : Nat)
  | domain_fixup (addr : Nat)
  | semihosting_init
  | fdt_serial_init
  | domains_populate (addr : Nat)
deriving DecidableEq

/-- Shallow embedding of `quard_star_early_init(cold_boot)`: when
`!cold_boot`, return 0 at once; otherwise call `fdt_reset_init()` and
return 0.  The body never writes the global state, so it is threaded
through unchanged. -/
def quard_star_early_init (cold_boot : Bool) (g : GlobalState) :
    GlobalState × Int × List Event :=
  if !cold_boot then (g, 0, [])
  else (g, 0, [Event.reset_init])

/-- Shallow embedding of `quard_star_final_init(cold_boot)`: when
`!cold_boot`, return 0 at once; otherwise re-acquire the tree handle from
the boot-time-saved scratch state (`sbi_scratch_thishart_arg1_ptr()`,
modelled as the parameter `scratch_arg1`) and call `fdt_cpu_fixup`,
`fdt_fixups`, `fdt_domain_fixup` on it in that order, then return 0. -/
def quard_star_final_init (cold_boot : Bool) (scratch_arg1 : Nat)
    (g : GlobalState) : GlobalState × Int × List Event :=
  if !cold_boot then (g, 0, [])
  else (g, 0, [Event.cpu_fixup scratch_arg1, Event.fixups scratch_arg1,
               Event.domain_fixup scratch_arg1])

/-- Shallow embedding of `quard_star_early_exit()`: an empty body. -/
def quard_star_early_exit (g : GlobalState) : GlobalState × List Event :=
  (g, [])

/-- Shallow embedding of `quard_star_final_exit()`: an empty body. -/
def quard_star_final_exit (g : GlobalState) : GlobalState × List Event :=
  (g, [])

/-- The environment `quard_star_console_init` consults: the
`semihosting_enabled()` advertisement and the results its two possible
collaborator calls would produce. -/
structure ConsoleEnv where
  semihosting_enabled : Bool
  semihosting_init_result : Int
  fdt_serial_init_result : Int
deriving DecidableEq

/-- Shallow embedding of `quard_star_console_init()`: when
`semihosting_enabled()`, return `semihosting_init()`; else return
`fdt_serial_init()`. -/
def quard_star_console_init (env : ConsoleEnv) (g : GlobalState) :
    GlobalState × Int × List Event :=
  if env.semihosting_enabled then
    (g, env.semihosting_init_result, [Event.semihosting_init])
  else
    (g, env.fdt_serial_init_result, [Event.fdt_serial_init])

/-- Shallow embedding of `quard_star_domains_init()`:
`return fdt_domains_populate(fdt_get_address())`, with the tree's current
address modelled as `fdt_addr` and the collaborator's result as the
function `populate`. -/
def quard_star_domains_init (fdt_addr : Nat) (populate : Nat → Int)
    (g : GlobalState) : GlobalState × Int × List Event :=
  (g, populate fdt_addr, [Event.domains_populate fdt_addr])

/-- The hart identifiers that the loop of `fw_platform_init` accepts, in
document order: nodes whose identifier parses, is below
`SBI_HARTMASK_MAX_BITS`, and that are enabled. -/
def survivorIds (nodes : List CpuNode) : List Nat :=
  nodes.filterMap fun node =>
    match node.hartIdProp with
    | none => none
    | some hartid =>
      if SBI_HARTMASK_MAX_BITS ≤ hartid then none
      else if !node.enabled then none
      else some hartid

/-- Sequential stores `tbl[k] := v0, tbl[k+1] := v1, ...`: the shape of
the table updates performed by the loop. -/
def writeSeq : List Nat → Nat → List Nat → List Nat
  | tbl, _, [] => tbl
  | tbl, k, v :: ids => writeSeq (tbl.set k v) (k + 1) ids

/-- Byte content of the model string "Board-X". -/
def boardXBytes : List Nat := [66, 111, 97, 114, 100, 45, 88]

/-- The end-to-end scenario tree: a root with model "Board-X" and a cpus
container holding three enabled nodes (identifiers 0, 2, 5) and one
disabled node (identifier 1). -/
def fdtE2E : Fdt :=
  { hasRoot := true, model := some boardXBytes, hasCpus := true,
    cpus := [⟨some 0, true⟩, ⟨some 1, false⟩, ⟨some 2, true⟩,
             ⟨some 5, true⟩] }

/-- A tree whose cpus container holds `SBI_HARTMASK_MAX_BITS + 1` enabled
nodes that all carry the parseable, in-range identifier 0. -/
def fdtDup : Fdt :=
  { hasRoot := true, model := none, hasCpus := true,
    cpus := List.replicate (SBI_HARTMASK_MAX_BITS + 1) ⟨some 0, true⟩ }

/-- A tree with a root node carrying a model property but with no cpus
container. -/
def fdtNoCpus : Fdt :=
  { hasRoot := true, model := some boardXBytes, hasCpus := false,
    cpus := [] }

/-- A tree with no root node at all. -/
def fdtNoRoot : Fdt :=
  { hasRoot := false, model := none, hasCpus := false, cpus := [] }

/-- A 70-byte model string (all bytes 65), longer than the descriptor's
name capacity. -/
def longModelBytes : List Nat := List.replicate 70 65

/-- A tree with root present, the long model string, and an empty cpus
container. -/
def fdtLong : Fdt :=
  { hasRoot := true, model := some longModelBytes, hasCpus := true,
    cpus := [] }

/-- The loop of `fw_platform_init`, characterized: starting from any loop
state, the final count adds the number of accepted identifiers, the table
receives them by sequential stores at the running count, and the store
indices are the consecutive naturals starting at the initial count. -/
theorem foldl_fwLoopStep (nodes : List CpuNode) (st : LoopState) :
    nodes.foldl fwLoopStep st =
      { hart_count := st.hart_count + (survivorIds nodes).length,
        table := writeSeq st.table st.hart_count (survivorIds nodes),
        writes := st.writes ++
          List.range' st.hart_count (survivorIds nodes).length } := by
  induction nodes generalizing st with
  | nil => simp [survivorIds, writeSeq]
  | cons node nodes ih =>
    cases hp : node.hartIdProp with
    | none =>
      rw [List.foldl_cons, ih]
      simp [survivorIds, List.filterMap_cons, hp, fwLoopStep]
    | some h =>
      by_cases hrange : SBI_HARTMASK_MAX_BITS ≤ h
      · rw [List.foldl_cons, ih]
        simp [survivorIds, List.filterMap_cons, hp, hrange, fwLoopStep]
      · by_cases hen : node.enabled
        · rw [List.foldl_cons, ih]
          have hstep : fwLoopStep st node =
              { hart_count := st.hart_count + 1,
                table := st.table.set st.hart_count h,
                writes := st.writes ++ [st.hart_count] } := by
            simp [fwLoopStep, hp, hrange, hen]
          have hsurv : survivorIds (node :: nodes) = h :: survivorIds nodes := by
            simp [survivorIds, List.filterMap_cons, hp, hrange, hen]
          rw [hstep, hsurv]
          simp only [LoopState.mk.injEq]
          refine ⟨by simp [List.length_cons]; omega, by simp [writeSeq], ?_⟩
          rw [List.length_cons, List.range'_succ]
          simp
        · rw [List.foldl_cons, ih]
          simp [survivorIds, List.filterMap_cons, hp, hrange, hen, fwLoopStep]

/-- Sequential stores at indices `k, k+1, ...` that all fit in the table
replace the corresponding segment of the table and touch nothing else. -/
theorem writeSeq_eq (ids : List Nat) : ∀ (tbl : List Nat) (k : Nat),
    k + ids.length ≤ tbl.length →
    writeSeq tbl k ids = tbl.take k ++ ids ++ tbl.drop (k + ids.length) := by
  induction ids with
  | nil =>
    intro tbl k _
    simp [writeSeq]
  | cons v ids ih =>
    intro tbl k h
    rw [List.length_cons] at h
    have hk : k < tbl.length := by omega
    have hset : k + 1 + ids.length ≤ (tbl.set k v).length := by
      rw [List.length_set]; omega
    rw [writeSeq, ih _ _ hset, List.set_eq_take_cons_drop v hk]
    have htk : (tbl.take k).length = k := by
      rw [List.length_take]; omega
    have htake : List.take (k + 1) (List.take k tbl) = List.take k tbl :=
      List.take_of_length_le (by rw [htk]; omega)
    have hdropnil :
        List.drop (k + 1 + ids.length) (List.take k tbl) = [] :=
      List.drop_eq_nil_of_le (by rw [htk]; omega)
    rw [List.take_append_eq_append_take, List.drop_append_eq_append_drop,
      htake, hdropnil, htk]
    have h1 : k + 1 - k = 1 := by omega
    have h2 : k + 1 + ids.length - k = ids.length + 1 := by omega
    rw [h1, h2]
    simp only [List.take_succ_cons, List.take_zero, List.drop_succ_cons,
      List.nil_append, List.drop_drop]
    have h3 : k + 1 + ids.length = k + (ids.length + 1) := by omega
    rw [h3]
    simp [List.append_assoc]

/-- The truncating copy, characterized: with `j` the number of bytes
actually copied (bounded by the count, the source length and the
destination length), the result is the copied source segment followed by
the untouched destination tail. -/
theorem sbi_strncpy_eq (src : List Nat) : ∀ (dest : List Nat) (n : Nat),
    sbi_strncpy dest src n =
      src.take (min n (min src.length dest.length)) ++
        dest.drop (min n (min src.length dest.length)) := by
  induction src with
  | nil =>
    intro dest n
    cases n <;> simp [sbi_strncpy]
  | cons s src ih =>
    intro dest n
    cases n with
    | zero => simp [sbi_strncpy]
    | succ n =>
      cases dest with
      | nil => simp [sbi_strncpy]
      | cons d dest =>
        rw [sbi_strncpy, ih]
        simp only [List.length_cons, Nat.succ_min_succ, List.take_succ_cons,
          List.drop_succ_cons, List.cons_append]

/-- The copy step of `fw_platform_init` never changes the hart table. -/
theorem fwNamePhase_table (fdt : Fdt) (g : GlobalState) :
    (fwNamePhase fdt g).generic_hart_index2id = g.generic_hart_index2id := by
  cases h : fdt.model <;> simp [fwNamePhase, h]

/-- The copy step of `fw_platform_init` never changes the hart count. -/
theorem fwNamePhase_hart_count (fdt : Fdt) (g : GlobalState) :
    (fwNamePhase fdt g).platform.hart_count = g.platform.hart_count := by
  cases h : fdt.model <;> simp [fwNamePhase, h]

/-- When both path lookups succeed, `fw_platform_init` returns `arg1` with
the copied name, the loop's final count and the loop's final table. -/
theorem fw_platform_init_eq (arg1 : Nat) (fdt : Fdt) (g : GlobalState)
    (hroot : fdt.hasRoot = true) (hcpus : fdt.hasCpus = true) :
    fw_platform_init arg1 fdt g =
      .returned arg1
        { platform := { (fwNamePhase fdt g).platform with
            hart_count := (fwLoop fdt.cpus g.generic_hart_index2id).hart_count },
          generic_hart_index2id :=
            (fwLoop fdt.cpus g.generic_hart_index2id).table } := by
  simp [fw_platform_init, hroot, hcpus, fwNamePhase_table]

/-- When the root lookup fails, `fw_platform_init` halts with the state
untouched; when only the cpus lookup fails, it halts right after the name
copy step. -/
theorem fw_platform_init_halt (arg1 : Nat) (fdt : Fdt) (g : GlobalState)
    (h : fdt.hasRoot = false ∨ fdt.hasCpus = false) :
    fw_platform_init arg1 fdt g =
      .halted (if fdt.hasRoot then fwNamePhase fdt g else g) := by
  rcases h with h | h
  · simp [fw_platform_init, h]
  · cases hroot : fdt.hasRoot <;> simp [fw_platform_init, hroot, h]

/-- A duplicate-free list of naturals all below a bound has length at
most that bound. -/
theorem nodup_length_le (l : List Nat) (c : Nat) (hn : l.Nodup)
    (hb : ∀ x ∈ l, x < c) : l.length ≤ c := by
  have hsub : l.toFinset ⊆ Finset.range c := by
    intro x hx
    rw [List.mem_toFinset] at hx
    rw [Finset.mem_range]
    exact hb x hx
  have := Finset.card_le_card hsub
  rwa [List.toFinset_card_of_nodup hn, Finset.card_range] at this

/-- Every identifier the loop accepts is below `SBI_HARTMASK_MAX_BITS`. -/
theorem survivorIds_lt (nodes : List CpuNode) :
    ∀ x ∈ survivorIds nodes, x < SBI_HARTMASK_MAX_BITS := by
  intro x hx
  rw [survivorIds, List.mem_filterMap] at hx
  obtain ⟨node, _, heq⟩ := hx
  cases hp : node.hartIdProp with
  | none => rw [hp] at heq; simp at heq
  | some h =>
    rw [hp] at heq
    by_cases hrange : SBI_HARTMASK_MAX_BITS ≤ h
    · simp [hrange] at heq
    · by_cases hen : node.enabled
      · simp [hrange, hen] at heq
        omega
      · simp [hrange, hen] at heq

/-- With the root present, the name carried by the outcome state is the
name produced by the model-property step, whatever happens afterwards. -/
theorem fw_state_name (arg1 : Nat) (fdt : Fdt) (g : GlobalState)
    (hroot : fdt.hasRoot = true) :
    (fw_platform_init arg1 fdt g).state.platform.name =
      (fwNamePhase fdt g).platform.name := by
  cases hcpus : fdt.hasCpus
  · rw [fw_platform_init_halt arg1 fdt g (Or.inr hcpus)]
    simp [FwResult.state, hroot]
  · rw [fw_platform_init_eq arg1 fdt g hroot hcpus]
    simp [FwResult.state]

/-- C1 (amended): the descriptor's hart count equals
`SBI_HARTMASK_MAX_BITS` — the static-initializer value, not 0 — until the
one-time population step runs; whenever `fw_platform_init` returns, it
has set the count to the number of accepted (parseable, in-range,
enabled) hart entries found during blob traversal; and no lifecycle hook
of this unit changes it afterwards. -/
theorem c1_hart_count_life :
    initialGlobal.platform.hart_count = SBI_HARTMASK_MAX_BITS ∧
    (∀ (fdt : Fdt) (arg1 ret : Nat) (g' : GlobalState),
      fw_platform_init arg1 fdt initialGlobal = .returned ret g' →
      g'.platform.hart_count = (survivorIds fdt.cpus).length) ∧
    (∀ (cold : Bool) (g : GlobalState),
      (quard_star_early_init cold g).1.platform.hart_count =
        g.platform.hart_count) ∧
    (∀ (cold : Bool) (s : Nat) (g : GlobalState),
      (quard_star_final_init cold s g).1.platform.hart_count =
        g.platform.hart_count) ∧
    (∀ (env : ConsoleEnv) (g : GlobalState),
      (quard_star_console_init env g).1.platform.hart_count =
        g.platform.hart_count) ∧
    (∀ (a : Nat) (f : Nat → Int) (g : GlobalState),
      (quard_star_domains_init a f g).1.platform.hart_count =
        g.platform.hart_count) ∧
    (∀ g : GlobalState,
      (quard_star_early_exit g).1.platform.hart_count =
        g.platform.hart_count) ∧
    (∀ g : GlobalState,
      (quard_star_final_exit g).1.platform.hart_count =
        g.platform.hart_count) := by
  refine ⟨rfl, ?_, ?_, ?_, ?_, ?_, ?_, ?_⟩
  · intro fdt arg1 ret g' heq
    by_cases hroot : fdt.hasRoot = true
    · by_cases hcpus : fdt.hasCpus = true
      · rw [fw_platform_init_eq arg1 fdt initialGlobal hroot hcpus] at heq
        injection heq with h1 h2
        subst h2
        show (fwLoop fdt.cpus initialGlobal.generic_hart_index2id).hart_count
          = _
        rw [fwLoop, foldl_fwLoopStep]
        simp
      · rw [fw_platform_init_halt arg1 fdt initialGlobal
          (Or.inr (by simpa using hcpus))] at heq
        exact FwResult.noConfusion heq
    · rw [fw_platform_init_halt arg1 fdt initialGlobal
        (Or.inl (by simpa using hroot))] at heq
      exact FwResult.noConfusion heq
  · intro cold g
    cases cold <;> simp [quard_star_early_init]
  · intro cold s g
    cases cold <;> simp [quard_star_final_init]
  · intro env g
    by_cases h : env.semihosting_enabled <;> simp [quard_star_console_init, h]
  · intro a f g
    simp [quard_star_domains_init]
  · intro g
    simp [quard_star_early_exit]
  · intro g
    simp [quard_star_final_exit]

/-- C1 witness: on the end-to-end scenario tree the population step
returns and sets the hart count to the number of accepted entries. -/
theorem c1_hart_count_life_witness :
    ((fw_platform_init 0 fdtE2E initialGlobal).state).platform.hart_count =
      (survivorIds fdtE2E.cpus).length :=
  c1_hart_count_life.2.1 fdtE2E 0 0
    ((fw_platform_init 0 fdtE2E initialGlobal).state) (by decide)

/-- C1 counterexample: before the population step runs, the descriptor's
hart count is not 0 (the static initializer sets it to
`SBI_HARTMASK_MAX_BITS`). -/
theorem c1_hart_count_life_cex :
    initialGlobal.platform.hart_count ≠ 0 := by decide

/-- C2 (amended): for every tree (root and cpus present) whose accepted
(parseable, in-range, enabled) cpu entries number at most the table's
capacity — in particular whenever their identifiers are pairwise
distinct — population returns with a hart count that never exceeds
`SBI_HARTMASK_MAX_BITS`, and every store the traversal performs into the
hart table targets an index below that capacity. -/
theorem c2_capacity (fdt : Fdt) (arg1 : Nat)
    (hroot : fdt.hasRoot = true) (hcpus : fdt.hasCpus = true)
    (hbound : (survivorIds fdt.cpus).length ≤ SBI_HARTMASK_MAX_BITS) :
    ∃ g', fw_platform_init arg1 fdt initialGlobal = .returned arg1 g' ∧
      g'.platform.hart_count ≤ SBI_HARTMASK_MAX_BITS ∧
      ∀ i ∈ (fwLoop fdt.cpus initialTable).writes,
        i < SBI_HARTMASK_MAX_BITS := by
  refine ⟨_, fw_platform_init_eq arg1 fdt initialGlobal hroot hcpus, ?_, ?_⟩
  · show (fwLoop fdt.cpus initialGlobal.generic_hart_index2id).hart_count ≤ _
    rw [fwLoop, foldl_fwLoopStep]
    simpa using hbound
  · rw [fwLoop, foldl_fwLoopStep]
    intro i hi
    simp only [List.nil_append, List.mem_range'_1] at hi
    omega

/-- C2 witness: the end-to-end scenario tree has three accepted entries,
within capacity, and population indeed stays within the table. -/
theorem c2_capacity_witness :
    (survivorIds fdtE2E.cpus).length ≤ SBI_HARTMASK_MAX_BITS ∧
    ∃ g', fw_platform_init 0 fdtE2E initialGlobal = .returned 0 g' ∧
      g'.platform.hart_count ≤ SBI_HARTMASK_MAX_BITS ∧
      ∀ i ∈ (fwLoop fdtE2E.cpus initialTable).writes,
        i < SBI_HARTMASK_MAX_BITS :=
  ⟨by decide, c2_capacity fdtE2E 0 rfl rfl (by decide)⟩

set_option maxRecDepth 4000 in
/-- C2 counterexample: on the tree whose 129 enabled nodes all carry the
parseable, in-range identifier 0, population sets a hart count of
`SBI_HARTMASK_MAX_BITS + 1`, exceeding the table's capacity, and the
loop's last store targets index `SBI_HARTMASK_MAX_BITS`, outside the
table. -/
theorem c2_capacity_cex :
    (fw_platform_init 0 fdtDup initialGlobal).state.platform.hart_count =
        SBI_HARTMASK_MAX_BITS + 1 ∧
    ¬((fw_platform_init 0 fdtDup initialGlobal).state.platform.hart_count ≤
        SBI_HARTMASK_MAX_BITS) ∧
    SBI_HARTMASK_MAX_BITS ∈ (fwLoop fdtDup.cpus initialTable).writes := by
  have hsurv : (survivorIds fdtDup.cpus).length = SBI_HARTMASK_MAX_BITS + 1 :=
    by decide
  have heq := fw_platform_init_eq 0 fdtDup initialGlobal rfl rfl
  have hcount :
      (fw_platform_init 0 fdtDup initialGlobal).state.platform.hart_count =
        SBI_HARTMASK_MAX_BITS + 1 := by
    rw [heq]
    show (fwLoop fdtDup.cpus initialGlobal.generic_hart_index2id).hart_count
      = _
    rw [fwLoop, foldl_fwLoopStep]
    simpa using hsurv
  refine ⟨hcount, by omega, ?_⟩
  rw [fwLoop, foldl_fwLoopStep]
  simp only [List.nil_append, List.mem_range'_1]
  omega

/-- C3: for every tree whose root node or cpus container is absent,
`fw_platform_init` reaches the `fail` label and enters the non-returning
busy-wait halt — the returning outcome is impossible — and it never
writes the descriptor's hart count. -/
theorem c3_halt_no_count (fdt : Fdt) (arg1 : Nat) (g : GlobalState)
    (h : fdt.hasRoot = false ∨ fdt.hasCpus = false) :
    (∃ g', fw_platform_init arg1 fdt g = .halted g' ∧
        g'.platform.hart_count = g.platform.hart_count) ∧
    ∀ (ret : Nat) (g' : GlobalState),
      fw_platform_init arg1 fdt g ≠ .returned ret g' := by
  have hh := fw_platform_init_halt arg1 fdt g h
  constructor
  · refine ⟨_, hh, ?_⟩
    cases hroot : fdt.hasRoot
    · simp
    · simp [fwNamePhase_hart_count]
  · intro ret g' hc
    rw [hh] at hc
    exact FwResult.noConfusion hc

/-- C3 witness: on a tree with a root and a model property but no cpus
container, population halts with the hart count untouched, and the same
holds on a tree without a root node. -/
theorem c3_halt_no_count_witness :
    (∃ g', fw_platform_init 0 fdtNoCpus initialGlobal = .halted g' ∧
        g'.platform.hart_count = initialGlobal.platform.hart_count) ∧
    ∀ (ret : Nat) (g' : GlobalState),
      fw_platform_init 0 fdtNoCpus initialGlobal ≠ .returned ret g' :=
  c3_halt_no_count fdtNoCpus 0 initialGlobal (Or.inr rfl)

/-- C4: for every tree whose cpus container holds enabled cpu nodes with
parseable, in-range, pairwise-distinct hart identifiers, interleaved with
any number of nodes that are disabled, unparseable, or out of range,
population returns with a hart count equal to exactly the number N of
accepted nodes, the hart table's first N entries are the accepted
identifiers in original document (traversal) order — not sorted — each
excluded node contributes nothing, and the table keeps its capacity. -/
theorem c4_document_order (fdt : Fdt) (arg1 : Nat)
    (hroot : fdt.hasRoot = true) (hcpus : fdt.hasCpus = true)
    (hnodup : (survivorIds fdt.cpus).Nodup) :
    ∃ g', fw_platform_init arg1 fdt initialGlobal = .returned arg1 g' ∧
      g'.platform.hart_count = (survivorIds fdt.cpus).length ∧
      g'.generic_hart_index2id.take (survivorIds fdt.cpus).length =
        survivorIds fdt.cpus ∧
      g'.generic_hart_index2id.length = SBI_HARTMASK_MAX_BITS := by
  have hN : (survivorIds fdt.cpus).length ≤ SBI_HARTMASK_MAX_BITS :=
    nodup_length_le _ _ hnodup (survivorIds_lt fdt.cpus)
  have htlen : initialTable.length = SBI_HARTMASK_MAX_BITS := by
    rw [initialTable, List.length_replicate]
  refine ⟨_, fw_platform_init_eq arg1 fdt initialGlobal hroot hcpus, ?_, ?_, ?_⟩
  · show (fwLoop fdt.cpus initialGlobal.generic_hart_index2id).hart_count = _
    rw [fwLoop, foldl_fwLoopStep]
    simp
  · show (fwLoop fdt.cpus initialGlobal.generic_hart_index2id).table.take _ = _
    rw [fwLoop, foldl_fwLoopStep]
    show (writeSeq initialTable 0 (survivorIds fdt.cpus)).take _ = _
    rw [writeSeq_eq _ _ _ (by omega)]
    simp only [List.take_zero, List.nil_append, Nat.zero_add]
    exact List.take_left' rfl
  · show (fwLoop fdt.cpus initialGlobal.generic_hart_index2id).table.length = _
    rw [fwLoop, foldl_fwLoopStep]
    show (writeSeq initialTable 0 (survivorIds fdt.cpus)).length = _
    rw [writeSeq_eq _ _ _ (by omega)]
    simp only [List.take_zero, List.nil_append, Nat.zero_add,
      List.length_append, List.length_drop]
    omega

/-- C4 witness: on the end-to-end scenario tree, population returns hart
count 3 and the table's first three entries are 0, 2, 5 in document
order. -/
theorem c4_document_order_witness :
    (survivorIds fdtE2E.cpus).Nodup ∧
    ∃ g', fw_platform_init 0 fdtE2E initialGlobal = .returned 0 g' ∧
      g'.platform.hart_count = (survivorIds fdtE2E.cpus).length ∧
      g'.generic_hart_index2id.take (survivorIds fdtE2E.cpus).length =
        survivorIds fdtE2E.cpus ∧
      g'.generic_hart_index2id.length = SBI_HARTMASK_MAX_BITS :=
  ⟨by decide, c4_document_order fdtE2E 0 rfl rfl (by decide)⟩

/-- C5: with the root present and a model property of content `m`, the
identity field at the outcome of population equals the first
(capacity − 1) bytes of `m` followed by the untouched tail of the default
identity; its length still equals the name capacity, so nothing is
written past the buffer; and its last byte is still the zero byte placed
there by the static initializer, so the terminating bound survives even
when `m` is longer than the capacity.  With the model property absent,
the default identity is left untouched. -/
theorem c5_name_truncation (fdt : Fdt) (arg1 : Nat)
    (hroot : fdt.hasRoot = true) :
    (∀ m, fdt.model = some m →
      (fw_platform_init arg1 fdt initialGlobal).state.platform.name =
          m.take (PLATFORM_NAME_SIZE - 1) ++
            initialName.drop (min (PLATFORM_NAME_SIZE - 1) m.length) ∧
      (fw_platform_init arg1 fdt initialGlobal).state.platform.name.length =
          PLATFORM_NAME_SIZE ∧
      ((fw_platform_init arg1 fdt
          initialGlobal).state.platform.name)[PLATFORM_NAME_SIZE - 1]? =
        some 0) ∧
    (fdt.model = none →
      (fw_platform_init arg1 fdt initialGlobal).state.platform.name =
        initialName) := by
  have hname := fw_state_name arg1 fdt initialGlobal hroot
  have hlen : initialName.length = 64 := by decide
  constructor
  · intro m hm
    have hcopy : (fwNamePhase fdt initialGlobal).platform.name =
        sbi_strncpy initialName m 63 := by
      simp [fwNamePhase, hm, PLATFORM_NAME_SIZE, initialGlobal,
        initialPlatform]
    have hmin : min 63 (min m.length initialName.length) = min 63 m.length :=
      by rw [hlen]; omega
    have hchar : sbi_strncpy initialName m 63 =
        m.take (min 63 m.length) ++ initialName.drop (min 63 m.length) := by
      rw [sbi_strncpy_eq, hmin]
    have htake : m.take (min 63 m.length) = m.take 63 := by
      rw [List.take_eq_take]
      omega
    have h63 : PLATFORM_NAME_SIZE - 1 = 63 := by decide
    refine ⟨?_, ?_, ?_⟩
    · rw [hname, hcopy, hchar, htake, h63]
    · rw [hname, hcopy, hchar]
      have h1 : (m.take (min 63 m.length)).length = min 63 m.length := by
        rw [List.length_take]
        omega
      rw [List.length_append, h1, List.length_drop, hlen, PLATFORM_NAME_SIZE]
      omega
    · rw [hname, hcopy, hchar, h63]
      have h1 : (m.take (min 63 m.length)).length = min 63 m.length := by
        rw [List.length_take]
        omega
      rw [List.getElem?_append_right (by omega), h1, List.getElem?_drop]
      have h2 : min 63 m.length + (63 - min 63 m.length) = 63 := by omega
      rw [h2]
      decide
  · intro hm
    rw [hname]
    simp [fwNamePhase, hm, initialGlobal, initialPlatform]

/-- C5 witness: on a tree carrying a 70-byte model string, the identity
field becomes the string's first 63 bytes followed by the default
identity's final zero byte, with the length and the terminating bound
preserved. -/
theorem c5_name_truncation_witness :
    (fw_platform_init 0 fdtLong initialGlobal).state.platform.name =
        longModelBytes.take (PLATFORM_NAME_SIZE - 1) ++
          initialName.drop (min (PLATFORM_NAME_SIZE - 1)
            longModelBytes.length) ∧
    (fw_platform_init 0 fdtLong initialGlobal).state.platform.name.length =
        PLATFORM_NAME_SIZE ∧
    ((fw_platform_init 0 fdtLong
        initialGlobal).state.platform.name)[PLATFORM_NAME_SIZE - 1]? =
      some 0 :=
  (c5_name_truncation fdtLong 0 rfl).1 longModelBytes rfl

/-- C6: with the cold-boot flag set, final-init re-acquires the tree
handle from the boot-time-saved scratch state and invokes exactly the
three fixups, once each, in the fixed order hart-topology fixup, generic
fixups, domain-topology fixup, then returns success; without the flag it
is a no-op returning success with no fixup invoked. -/
theorem c6_final_init_fixups (s : Nat) (g : GlobalState) :
    quard_star_final_init true s g =
        (g, 0, [Event.cpu_fixup s, Event.fixups s, Event.domain_fixup s]) ∧
    (quard_star_final_init true s g).2.2.count (Event.cpu_fixup s) = 1 ∧
    (quard_star_final_init true s g).2.2.count (Event.fixups s) = 1 ∧
    (quard_star_final_init true s g).2.2.count (Event.domain_fixup s) = 1 ∧
    quard_star_final_init false s g = (g, 0, []) := by
  refine ⟨rfl, ?_, ?_, ?_, rfl⟩ <;>
    simp [quard_star_final_init, List.count_cons]

/-- C7: console-init attempts exactly one provider: with the
virtualization advertisement set it calls only the semihosting provider
and returns that provider's result — the serial provider is never
attempted even when that result is a failure — and with the
advertisement clear it calls only the blob-described serial provider and
returns that provider's result, with the semihosting provider never
attempted. -/
theorem c7_console_single_provider (g : GlobalState) (rs rf : Int) :
    (quard_star_console_init ⟨true, rs, rf⟩ g = (g, rs, [Event.semihosting_init]) ∧
      Event.fdt_serial_init ∉ (quard_star_console_init ⟨true, rs, rf⟩ g).2.2) ∧
    (quard_star_console_init ⟨false, rs, rf⟩ g = (g, rf, [Event.fdt_serial_init]) ∧
      Event.semihosting_init ∉ (quard_star_console_init ⟨false, rs, rf⟩ g).2.2) := by
  refine ⟨⟨rfl, ?_⟩, ⟨rfl, ?_⟩⟩ <;> simp [quard_star_console_init]

/-- C8: early-init triggers the reset-capability registration exactly
when called with the cold-boot flag set, and every call without the flag
performs no action and returns success. -/
theorem c8_early_init_reset (g : GlobalState) :
    quard_star_early_init true g = (g, 0, [Event.reset_init]) ∧
    quard_star_early_init false g = (g, 0, []) ∧
    ∀ cold : Bool,
      (Event.reset_init ∈ (quard_star_early_init cold g).2.2 ↔ cold = true) := by
  refine ⟨rfl, rfl, ?_⟩
  intro cold
  cases cold <;> simp [quard_star_early_init]

/-- C9: domains-init returns the domain-population collaborator's result
verbatim, applied to the tree's current address: whatever value the
collaborator produces for that address, success or failure, is exactly
the returned value, and the collaborator is invoked on exactly that
address. -/
theorem c9_domains_verbatim (fdt_addr : Nat) (populate : Nat → Int)
    (g : GlobalState) :
    quard_star_domains_init fdt_addr populate g =
      (g, populate fdt_addr, [Event.domains_populate fdt_addr]) := rfl

/-- C10: the fatal halt on a missing cpus container is not atomic with
respect to the descriptor: on the concrete tree with a root carrying
model "Board-X" but no cpus container, the unit enters the non-returning
halt with the identity field already overwritten by the model string —
the fatal path does not leave all descriptor state unchanged. -/
theorem c10_halt_not_atomic :
    (fw_platform_init 0 fdtNoCpus initialGlobal).isHalted = true ∧
    (fw_platform_init 0 fdtNoCpus initialGlobal).state.platform.name ≠
      initialGlobal.platform.name ∧
    (fw_platform_init 0 fdtNoCpus initialGlobal).state.platform.name =
      boardXBytes ++ initialName.drop 7 := by decide
